import Mathlib

/-!
Shallow embedding of the version-checking engine of the `chex` repository
(`internal/checker/checker.go`) and verification of its specification.

Go strings are modelled as `List Char` (`Str`).  The engine's external
effects — resolving a command on the search path (`exec.LookPath`), running
a subprocess and capturing its combined stdout+stderr (`exec.Cmd.Run`),
compiling/applying a user-supplied regular expression (`regexp`), and the
Masterminds semver library (`semver.NewConstraint`, `semver.NewVersion`,
`Constraints.Check`) — are modelled as an explicit environment record
`Env`, so that every function of the checker becomes a pure function of the
environment and its arguments.  The semver library's constraint and version
types are abstract type parameters `C` and `V` of the environment.
-/

namespace Chex

/-- Go strings, modelled as lists of characters. -/
abbrev Str := List Char

/-- `config.Tool` (internal/config/types.go): a processed tool ready for
checking.  Zero values of the Go struct are the field defaults. -/
structure Tool where
  name : Str := []
  cli : Str := []
  version : Str := []
  versionArg : Str := []
  versionPattern : Str := []
  optional : Bool := false
  message : Str := []
  source : Str := []
deriving DecidableEq, Repr

/-- `checker.Result`: the result of checking a single tool.  `Status` is a
string type in Go (`type Status string`), so `status` is modelled as `Str`;
the Go zero value (empty string) is the default.  `error` is `none` for a
nil Go error and `some msg` for a non-nil error with message `msg`. -/
structure Result where
  tool : Tool
  status : Str := []
  installedVersion : Str := []
  path : Str := []
  output : Str := []
  error : Option Str := none
deriving DecidableEq, Repr

/-- `checker.StatusPass = "pass"`. -/
def StatusPass : Str := "pass".toList

/-- `checker.StatusFail = "fail"`. -/
def StatusFail : Str := "fail".toList

/-- `checker.StatusOptionalMissing = "optional_missing"`. -/
def StatusOptionalMissing : Str := "optional_missing".toList

/-- The checker's external effects, as an explicit environment.
`run cli args` yields the combined stdout+stderr text captured from the
subprocess together with `cmd.Run`'s error (`none` = exit status zero,
`some msg` = non-nil error, e.g. a non-zero exit or command not found).
`regexCompile` is `regexp.Compile` followed by `FindStringSubmatch`: a
compiled pattern is modelled as the submatch-list function it induces.
`semverNewConstraint` / `semverNewVersion` / `constraintCheck` model the
Masterminds semver library over abstract types `C` and `V`. -/
structure Env (C V : Type) where
  lookPath : Str → Option Str
  run : Str → List Str → Str × Option Str
  regexCompile : Str → Except Str (Str → List Str)
  semverNewConstraint : Str → Except Str C
  semverNewVersion : Str → Except Str V
  constraintCheck : C → V → Bool

/-! ### String helpers mirroring the Go standard library -/

/-- `strings.Split(s, sep)` for a one-character separator (the checker only
ever splits on `"\n"`).  `splitOnChar c [] = [[]]`, matching Go's
`Split("", sep) = [""]`. -/
def splitOnChar (sep : Char) : Str → List Str
  | [] => [[]]
  | c :: rest =>
    if c = sep then [] :: splitOnChar sep rest
    else match splitOnChar sep rest with
      | [] => [[c]]
      | l :: ls => (c :: l) :: ls

/-- `strings.TrimSpace`: drop leading and trailing whitespace. -/
def trimSpace (s : Str) : Str :=
  ((s.dropWhile Char.isWhitespace).reverse.dropWhile Char.isWhitespace).reverse

/-- `strings.ToLower`, character by character. -/
def toLowerStr (s : Str) : Str := s.map Char.toLower

/-- Whether `pat` is a prefix of `s` (helper for `containsSub`). -/
def isPrefixOfStr : Str → Str → Bool
  | [], _ => true
  | _ :: _, [] => false
  | p :: ps, c :: cs => p = c && isPrefixOfStr ps cs

/-- `strings.Contains(s, pat)`: `pat` occurs as a contiguous substring. -/
def containsSub (s pat : Str) : Bool :=
  match s with
  | [] => isPrefixOfStr pat []
  | _ :: cs => isPrefixOfStr pat s || containsSub cs pat

/-- `strings.Fields`: split on runs of whitespace, dropping empty pieces. -/
def fields (s : Str) : List Str :=
  (s.splitOnP Char.isWhitespace).filter (fun piece => piece ≠ [])

/-! ### looksLikeVersionOutput -/

/-- The reject substrings of `looksLikeVersionOutput` (checker.go:182-190). -/
def rejectPatterns : List Str :=
  ["usage:".toList, "error:".toList, "flag provided".toList,
   "unknown flag".toList, "unknown command".toList, "help".toList,
   "failed validation".toList]

/-- `looksLikeVersionOutput` (checker.go:165-211): does captured output look
like version information?  Inspects the first line only: trims it, rejects
lines longer than 200 characters, rejects lines containing (after
lowercasing) any of `rejectPatterns`, and accepts exactly when the line
contains a `'.'` and at least one decimal digit. -/
def looksLikeVersionOutput (output : Str) : Bool :=
  let lines := splitOnChar '\n' output
  match lines with
  | [] => false
  | firstLine0 :: _ =>
    let firstLine := trimSpace firstLine0
    let lowerFirstLine := toLowerStr firstLine
    if firstLine.length > 200 then false
    else if rejectPatterns.any (fun pat => containsSub lowerFirstLine pat) then false
    else
      let hasDigit := firstLine.any (fun c => '0' ≤ c && c ≤ '9')
      containsSub firstLine ['.'] && hasDigit

/-! ### extractVersion -/

/-- One match attempt of the regular expression `\d+\.\d+(\.\d+)?` anchored
at the start of `s` (RE2 semantics: maximal digit runs; the optional third
component is taken greedily when `'.'` followed by at least one digit comes
next).  Returns the matched text, or `none` when the expression does not
match at this position. -/
def matchVersionAt (s : Str) : Option Str :=
  let d1 := s.takeWhile Char.isDigit
  let r1 := s.dropWhile Char.isDigit
  if d1.isEmpty then none
  else match r1 with
    | '.' :: r2 =>
      let d2 := r2.takeWhile Char.isDigit
      let r3 := r2.dropWhile Char.isDigit
      if d2.isEmpty then none
      else match r3 with
        | '.' :: r4 =>
          let d3 := r4.takeWhile Char.isDigit
          if d3.isEmpty then some (d1 ++ '.' :: d2)
          else some (d1 ++ '.' :: d2 ++ '.' :: d3)
        | _ => some (d1 ++ '.' :: d2)
    | _ => none

/-- The `FindString` of the compiled pattern `\d+\.\d+(\.\d+)?` on a line:
the leftmost match of the version pattern in `line`, or `none`.  (Go's
`FindString` returns the empty string on no match, which the caller treats
as no match; `Option` makes that explicit.) -/
def findVersionInLine : Str → Option Str
  | [] => none
  | c :: rest =>
    match matchVersionAt (c :: rest) with
    | some m => some m
    | none => findVersionInLine rest

/-- The default line scan of `extractVersion` (checker.go:251-266): trim
each line, skip empty lines, return the first version-pattern match. -/
def extractVersionLines : List Str → Except Str Str
  | [] => .error "no version found in output".toList
  | line0 :: rest =>
    let line := trimSpace line0
    if line = [] then extractVersionLines rest
    else match findVersionInLine line with
      | some m => .ok m
      | none => extractVersionLines rest

/-- `extractVersion` (checker.go:233-267): extract a version string from
command output.  With a non-empty custom pattern, compile it and take the
first capture group (or the whole match) of `FindStringSubmatch` on the
whole text; otherwise scan the text line by line, trimming and skipping
empty lines, returning the first `X.Y` / `X.Y.Z` substring found. -/
def extractVersion {C V : Type} (env : Env C V) (output pattern : Str) :
    Except Str Str :=
  if pattern ≠ [] then
    match env.regexCompile pattern with
    | .error e => .error ("invalid version pattern: ".toList ++ e)
    | .ok re =>
      let ms := re output
      if ms.length > 1 then .ok (ms.getD 1 [])
      else if ms.length > 0 then .ok (ms.getD 0 [])
      else .error "pattern did not match".toList
  else
    extractVersionLines (splitOnChar '\n' output)

/-! ### Version probing -/

/-- `runCommand` (checker.go:214-230): run a command, returning the combined
stdout/stderr text and the error.  When `cmd.Run` errors but output was
captured, both are returned; with no output, the error alone. -/
def runCommand {C V : Type} (env : Env C V) (cli : Str) (args : List Str) :
    Str × Option Str :=
  let (output, err) := env.run cli args
  match err with
  | some e => if output ≠ [] then (output, some e) else ([], some e)
  | none => (output, none)

/-- The smart-guess argument sets (checker.go:138-145), in source order. -/
def commonVersionArgs : List (List Str) :=
  [["--version".toList], ["version".toList], ["-v".toList], ["-V".toList],
   ["--version-short".toList], ["-version".toList]]

/-- The accept condition of the smart-guess loop (checker.go:153):
`output != "" && looksLikeVersionOutput(output)`. -/
def acceptOutput (output : Str) : Bool :=
  decide (output ≠ []) && looksLikeVersionOutput output

/-- The smart-guess loop of `executeVersionCommand` (checker.go:147-161):
try each argument set in order; accept the first whose captured output is
non-empty and looks like version output, ignoring the run error. -/
def tryVersionArgs {C V : Type} (env : Env C V) (cli : Str) :
    List (List Str) → Except Str Str
  | [] => .error (cli ++ ": failed to get version".toList)
  | args :: rest =>
    let output := (runCommand env cli args).1
    if acceptOutput output then .ok output
    else tryVersionArgs env cli rest

/-- `executeVersionCommand` (checker.go:121-162): with an explicit
`versionArg`, run the command once with those arguments, failing on any run
error; otherwise run the smart-guess loop. -/
def executeVersionCommand {C V : Type} (env : Env C V) (tool : Tool) :
    Except Str Str :=
  if tool.versionArg ≠ [] then
    let args := fields tool.versionArg
    match runCommand env tool.cli args with
    | (_, some e) => .error (tool.cli ++ ": ".toList ++ e)
    | (output, none) => .ok output
  else
    tryVersionArgs env tool.cli commonVersionArgs

/-! ### Single-tool check -/

/-- `checkExistence` (checker.go:52-66): resolve the command on the search
path without executing it. -/
def checkExistence {C V : Type} (env : Env C V) (tool : Tool) : Result :=
  match env.lookPath tool.cli with
  | none =>
    { tool := tool
      status := if tool.optional then StatusOptionalMissing else StatusFail
      error := some (tool.cli ++ ": command not found".toList) }
  | some path =>
    { tool := tool, status := StatusPass, path := path }

/-- `checkVersion` (checker.go:69-118): probe for version output, extract a
version, and test it against the semver constraint. -/
def checkVersion {C V : Type} (env : Env C V) (tool : Tool) : Result :=
  match executeVersionCommand env tool with
  | .error e =>
    { tool := tool
      status := if tool.optional then StatusOptionalMissing else StatusFail
      error := some e }
  | .ok versionOutput =>
    match extractVersion env versionOutput tool.versionPattern with
    | .error e =>
      { tool := tool, status := StatusFail, output := versionOutput
        error := some ("failed to extract version: ".toList ++ e) }
    | .ok version =>
      match env.semverNewConstraint tool.version with
      | .error e =>
        { tool := tool, status := StatusFail, output := versionOutput
          installedVersion := version
          error := some ("invalid version constraint '".toList ++ tool.version
                         ++ "': ".toList ++ e) }
      | .ok constraint =>
        match env.semverNewVersion version with
        | .error e =>
          { tool := tool, status := StatusFail, output := versionOutput
            installedVersion := version
            error := some ("failed to parse installed version '".toList
                           ++ version ++ "': ".toList ++ e) }
        | .ok installedVer =>
          if env.constraintCheck constraint installedVer then
            { tool := tool, status := StatusPass, output := versionOutput
              installedVersion := version }
          else
            { tool := tool
              status := if tool.optional then StatusOptionalMissing else StatusFail
              output := versionOutput, installedVersion := version }

/-- `Check` (checker.go:37-49): existence check when no version constraint
is configured, version check otherwise. -/
def Check {C V : Type} (env : Env C V) (tool : Tool) : Result :=
  if tool.version = [] then checkExistence env tool
  else checkVersion env tool

/-! ### Fan-out -/

/-- The synthetic result `CheckAll` builds for a requested key absent from
the configuration (checker.go:279-287). -/
def notFoundResult (name : Str) : Result :=
  { tool := { name := name, cli := name }
    status := StatusFail
    error := some ("tool '".toList ++ name
                   ++ "' not found in configuration".toList) }

/-- `CheckAll` (checker.go:270-299): check several tools.  The tool mapping
is modelled as an association list (Go map); with a non-empty filter, each
requested key is looked up and checked in request order, a missing key
yielding `notFoundResult`; with an empty filter every tool is checked. -/
def CheckAll {C V : Type} (env : Env C V) (tools : List (Str × Tool))
    (filter : List Str) : List Result :=
  if filter.length > 0 then
    filter.map (fun name =>
      match tools.lookup name with
      | none => notFoundResult name
      | some tool => Check env tool)
  else
    tools.map (fun kt => Check env kt.2)

/-! ### Timed account of the smart-guess loop

`executeVersionCommand` creates one `context.WithTimeout(..., 5*time.Second)`
(checker.go:122) before the smart-guess loop, so every attempt runs under the
same absolute deadline.  To reason about this, the subprocesses' wall-clock
behaviour is modelled explicitly: `duration args` is the time in seconds the
invocation with `args` needs before it finishes and prints its output, and
`output args` is what it prints when allowed to finish.  An invocation
cancelled before it finishes captures no usable output. -/

/-- Wall-clock behaviour of the probed command's invocations. -/
structure TimedRun where
  duration : List Str → Nat
  output : List Str → Str

/-- The probe timeout of `context.WithTimeout` (checker.go:122): 5 seconds. -/
def probeTimeout : Nat := 5

/-- The smart-guess loop (checker.go:147-161) with the shared
`context.WithTimeout` deadline made explicit: `t` is the time elapsed since
`executeVersionCommand` started.  An attempt finishes only when it fits in
the remaining budget `probeTimeout - t`; otherwise it is cancelled at the
absolute deadline (capturing nothing) and the loop continues with the next
argument set. -/
def tryVersionArgsTimed (tr : TimedRun) (cli : Str) :
    Nat → List (List Str) → Except Str Str
  | _, [] => .error (cli ++ ": failed to get version".toList)
  | t, args :: rest =>
    if t + tr.duration args ≤ probeTimeout then
      let output := tr.output args
      if acceptOutput output then .ok output
      else tryVersionArgsTimed tr cli (t + tr.duration args) rest
    else
      tryVersionArgsTimed tr cli probeTimeout rest

/-- The smart-guess path of `executeVersionCommand` under the timed model:
the context is created before the loop, so the loop starts with elapsed
time 0 against the single deadline `probeTimeout`. -/
def executeVersionCommandTimed (tr : TimedRun) (cli : Str) : Except Str Str :=
  tryVersionArgsTimed tr cli 0 commonVersionArgs

/-- The smart-guess loop as the specification describes it, for comparison:
"each of the up to six probe attempts is … bounded by its own 5-second
timeout (every attempt has the full 5-second budget available to it)" — an
attempt here finishes whenever its own duration fits in `probeTimeout`,
independent of the time spent by earlier attempts. -/
def tryVersionArgsPerAttemptSpec (tr : TimedRun) (cli : Str) :
    List (List Str) → Except Str Str
  | [] => .error (cli ++ ": failed to get version".toList)
  | args :: rest =>
    if tr.duration args ≤ probeTimeout then
      let output := tr.output args
      if acceptOutput output then .ok output
      else tryVersionArgsPerAttemptSpec tr cli rest
    else
      tryVersionArgsPerAttemptSpec tr cli rest

/-! ### The pass condition of a version check -/

/-- The condition under which a version check passes: the probe succeeded,
extraction succeeded, constraint and extracted version both parse, and the
parsed version satisfies the parsed constraint. -/
def PassCondition {C V : Type} (env : Env C V) (tool : Tool) : Prop :=
  ∃ out ver c v,
    executeVersionCommand env tool = .ok out ∧
    extractVersion env out tool.versionPattern = .ok ver ∧
    env.semverNewConstraint tool.version = .ok c ∧
    env.semverNewVersion ver = .ok v ∧
    env.constraintCheck c v = true

/-! ### Concrete environments and tools used by witnesses -/

/-- An environment over trivial semver types: every command resolves to
`/usr/local/bin/go`, `--version` prints `tool 1.2.3`, any other invocation
fails with no output; every constraint and version parses and every
constraint check succeeds. -/
def envW : Env Unit Unit :=
  { lookPath := fun _ => some "/usr/local/bin/go".toList
    run := fun _ args =>
      if args = ["--version".toList] then ("tool 1.2.3".toList, none)
      else ([], some "exit status 1".toList)
    regexCompile := fun _ => .error "missing closing )".toList
    semverNewConstraint := fun _ => .ok ()
    semverNewVersion := fun _ => .ok ()
    constraintCheck := fun _ _ => true }

/-- An environment whose single configured probe prints `.5` (accepted by
the version-text heuristic, but yielding no extractable `X.Y` version) and
exits zero; nothing resolves on the search path. -/
def envDot5 : Env Unit Unit :=
  { lookPath := fun _ => none
    run := fun _ _ => (".5".toList, none)
    regexCompile := fun _ => .error "missing closing )".toList
    semverNewConstraint := fun _ => .ok ()
    semverNewVersion := fun _ => .ok ()
    constraintCheck := fun _ _ => true }

/-- An environment where `mytool --foo` prints `1.2.3` but exits non-zero
(`cmd.Run` returns an error). -/
def envNonZero : Env Unit Unit :=
  { lookPath := fun _ => none
    run := fun cli args =>
      if cli = "mytool".toList ∧ args = ["--foo".toList] then
        ("1.2.3".toList, some "exit status 1".toList)
      else ([], some "executable file not found in $PATH".toList)
    regexCompile := fun _ => .error "missing closing )".toList
    semverNewConstraint := fun _ => .ok ()
    semverNewVersion := fun _ => .ok ()
    constraintCheck := fun _ _ => true }

/-- A tool with an explicit version-probe argument and a constraint. -/
def toolExplicit : Tool :=
  { name := "mytool".toList, cli := "mytool".toList
    version := ">=1.0.0".toList, versionArg := "--foo".toList }

/-- A required tool with a constraint and no explicit probe argument. -/
def toolSmart : Tool :=
  { name := "go".toList, cli := "go".toList, version := ">=1.20".toList }

/-- An optional tool with a constraint and an explicit probe argument. -/
def toolOptional : Tool :=
  { name := "opt".toList, cli := "opt".toList
    version := ">=1.0.0".toList, versionArg := "--version".toList
    optional := true }

/-- An existence-only tool (no version constraint). -/
def toolExistence : Tool :=
  { name := "go".toList, cli := "go".toList }

/-- Wall-clock behaviour refuting the per-attempt-budget reading of the
timeout: `--version` needs 4 seconds and prints text that fails the
heuristic, `version` needs 2 seconds and prints `1.2.3`, every other
invocation needs 1 second and prints nothing. -/
def trShared : TimedRun :=
  { duration := fun args =>
      if args = ["--version".toList] then 4
      else if args = ["version".toList] then 2
      else 1
    output := fun args =>
      if args = ["--version".toList] then "nodigits".toList
      else if args = ["version".toList] then "1.2.3".toList
      else [] }

/-- A string of the shape `digits '.' digits` optionally followed by
`'.' digits` — the language of the extraction pattern `\d+\.\d+(\.\d+)?`. -/
def VersionShape (m : Str) : Prop :=
  ∃ d1 d2, d1 ≠ [] ∧ d2 ≠ [] ∧
    (∀ c ∈ d1, c.isDigit = true) ∧ (∀ c ∈ d2, c.isDigit = true) ∧
    (m = d1 ++ '.' :: d2 ∨
      ∃ d3, d3 ≠ [] ∧ (∀ c ∈ d3, c.isDigit = true) ∧
        m = d1 ++ '.' :: d2 ++ '.' :: d3)

/-! ### Helper lemmas -/

theorem splitOnChar_ne_nil (sep : Char) (s : Str) : splitOnChar sep s ≠ [] := by
  induction s with
  | nil => simp [splitOnChar]
  | cons c rest ih =>
    rw [splitOnChar]
    by_cases h : c = sep
    · simp [h]
    · rw [if_neg h]
      rcases hr : splitOnChar sep rest with _ | ⟨l, ls⟩
      · exact absurd hr ih
      · simp

theorem containsSub_singleton (s : Str) (c : Char) :
    containsSub s [c] = true ↔ c ∈ s := by
  induction s with
  | nil => simp [containsSub, isPrefixOfStr]
  | cons x cs ih =>
    rw [containsSub]
    simp only [isPrefixOfStr, Bool.and_true, Bool.or_eq_true, ih,
      List.mem_cons, decide_eq_true_eq]

theorem containsSub_append_right (a b pat : Str)
    (h : containsSub b pat = true) : containsSub (a ++ b) pat = true := by
  induction a with
  | nil => simpa using h
  | cons x xs ih =>
    rw [List.cons_append, containsSub]
    exact Bool.or_eq_true_iff.mpr (Or.inr ih)

theorem runCommand_fst {C V : Type} (env : Env C V) (cli : Str)
    (args : List Str) : (runCommand env cli args).1 = (env.run cli args).1 := by
  rw [runCommand]
  rcases h : env.run cli args with ⟨out, err⟩
  cases err with
  | none => rfl
  | some e =>
    by_cases ho : out = []
    · subst ho; simp
    · simp [ho]

theorem tryVersionArgs_eq_find {C V : Type} (env : Env C V) (cli : Str)
    (l : List (List Str)) :
    tryVersionArgs env cli l =
      match l.find? (fun args => acceptOutput (runCommand env cli args).1) with
      | some args => .ok (runCommand env cli args).1
      | none => .error (cli ++ ": failed to get version".toList) := by
  induction l with
  | nil => rfl
  | cons args rest ih =>
    rw [tryVersionArgs, List.find?_cons]
    by_cases hacc : acceptOutput (runCommand env cli args).1 = true
    · simp [hacc]
    · rw [Bool.not_eq_true] at hacc
      simp [hacc, ih]

theorem check_tool_eq {C V : Type} (env : Env C V) (tool : Tool) :
    (Check env tool).tool = tool := by
  unfold Check checkExistence checkVersion
  repeat' split
  all_goals rfl

theorem statusPass_ne_fail : StatusPass ≠ StatusFail := by decide

theorem statusPass_ne_om : StatusPass ≠ StatusOptionalMissing := by decide

theorem statusFail_ne_om : StatusFail ≠ StatusOptionalMissing := by decide

theorem checkVersion_probe_error {C V : Type} (env : Env C V) (tool : Tool)
    (e : Str) (hE : executeVersionCommand env tool = .error e) :
    checkVersion env tool =
      { tool := tool
        status := if tool.optional then StatusOptionalMissing else StatusFail
        error := some e } := by
  simp only [checkVersion, hE]

theorem checkVersion_extract_error {C V : Type} (env : Env C V) (tool : Tool)
    (out e : Str) (hE : executeVersionCommand env tool = .ok out)
    (hX : extractVersion env out tool.versionPattern = .error e) :
    checkVersion env tool =
      { tool := tool, status := StatusFail, output := out
        error := some ("failed to extract version: ".toList ++ e) } := by
  simp only [checkVersion, hE, hX]

theorem checkVersion_constraint_error {C V : Type} (env : Env C V)
    (tool : Tool) (out ver e : Str)
    (hE : executeVersionCommand env tool = .ok out)
    (hX : extractVersion env out tool.versionPattern = .ok ver)
    (hC : env.semverNewConstraint tool.version = .error e) :
    checkVersion env tool =
      { tool := tool, status := StatusFail, output := out
        installedVersion := ver
        error := some ("invalid version constraint '".toList ++ tool.version
                       ++ "': ".toList ++ e) } := by
  simp only [checkVersion, hE, hX, hC]

theorem checkVersion_version_error {C V : Type} (env : Env C V) (tool : Tool)
    (out ver e : Str) (c : C)
    (hE : executeVersionCommand env tool = .ok out)
    (hX : extractVersion env out tool.versionPattern = .ok ver)
    (hC : env.semverNewConstraint tool.version = .ok c)
    (hV : env.semverNewVersion ver = .error e) :
    checkVersion env tool =
      { tool := tool, status := StatusFail, output := out
        installedVersion := ver
        error := some ("failed to parse installed version '".toList ++ ver
                       ++ "': ".toList ++ e) } := by
  simp only [checkVersion, hE, hX, hC, hV]

theorem checkVersion_constraint_holds {C V : Type} (env : Env C V)
    (tool : Tool) (out ver : Str) (c : C) (v : V)
    (hE : executeVersionCommand env tool = .ok out)
    (hX : extractVersion env out tool.versionPattern = .ok ver)
    (hC : env.semverNewConstraint tool.version = .ok c)
    (hV : env.semverNewVersion ver = .ok v)
    (hcc : env.constraintCheck c v = true) :
    checkVersion env tool =
      { tool := tool, status := StatusPass, output := out
        installedVersion := ver } := by
  simp only [checkVersion, hE, hX, hC, hV, hcc, if_true]

theorem checkVersion_constraint_fails {C V : Type} (env : Env C V)
    (tool : Tool) (out ver : Str) (c : C) (v : V)
    (hE : executeVersionCommand env tool = .ok out)
    (hX : extractVersion env out tool.versionPattern = .ok ver)
    (hC : env.semverNewConstraint tool.version = .ok c)
    (hV : env.semverNewVersion ver = .ok v)
    (hcc : env.constraintCheck c v = false) :
    checkVersion env tool =
      { tool := tool
        status := if tool.optional then StatusOptionalMissing else StatusFail
        output := out, installedVersion := ver } := by
  simp only [checkVersion, hE, hX, hC, hV, hcc, Bool.false_eq_true, if_false]

theorem ifStatus_ne_pass (b : Bool) :
    (if b = true then StatusOptionalMissing else StatusFail) ≠ StatusPass := by
  cases b <;> decide

theorem ifStatus_cases (b : Bool) :
    (if b = true then StatusOptionalMissing else StatusFail) = StatusFail ∨
    (if b = true then StatusOptionalMissing else StatusFail) =
      StatusOptionalMissing := by
  cases b
  · exact Or.inl (by decide)
  · exact Or.inr (by decide)

theorem ifStatus_om (b : Bool) :
    (if b = true then StatusOptionalMissing else StatusFail) =
      StatusOptionalMissing → b = true := by
  cases b
  · intro h; exact absurd h (by decide)
  · intro h; rfl

/-! ### The claims -/

/-- C1: for every tool descriptor with a non-empty version constraint, the
outcome's status is `Pass` if and only if the version probe succeeded,
version extraction succeeded, the constraint and the extracted version
both parse, and the parsed version satisfies the parsed constraint
(`PassCondition`); in every other case the status is `Fail` or
`OptionalMissing`. -/
theorem c1_version_check_pass_iff {C V : Type} (env : Env C V) (tool : Tool)
    (h : tool.version ≠ []) :
    ((Check env tool).status = StatusPass ↔ PassCondition env tool) ∧
    ((Check env tool).status = StatusPass ∨
      (Check env tool).status = StatusFail ∨
      (Check env tool).status = StatusOptionalMissing) := by
  have hCheck : Check env tool = checkVersion env tool := by
    rw [Check, if_neg h]
  rw [hCheck]
  rcases hE : executeVersionCommand env tool with e | out
  · rw [checkVersion_probe_error env tool e hE]
    have hnp : ¬ PassCondition env tool := by
      rintro ⟨out', ver', c', v', e1, -⟩
      rw [hE] at e1
      simp at e1
    exact ⟨⟨fun hs => absurd hs (ifStatus_ne_pass tool.optional),
      fun hp => absurd hp hnp⟩, Or.inr (ifStatus_cases tool.optional)⟩
  · rcases hX : extractVersion env out tool.versionPattern with e | ver
    · rw [checkVersion_extract_error env tool out e hE hX]
      have hnp : ¬ PassCondition env tool := by
        rintro ⟨out', ver', c', v', e1, e2, -⟩
        rw [hE, Except.ok.injEq] at e1
        subst e1
        rw [hX] at e2
        simp at e2
      exact ⟨⟨fun hs => absurd hs (Ne.symm statusPass_ne_fail),
        fun hp => absurd hp hnp⟩, Or.inr (Or.inl rfl)⟩
    · rcases hC : env.semverNewConstraint tool.version with e | c
      · rw [checkVersion_constraint_error env tool out ver e hE hX hC]
        have hnp : ¬ PassCondition env tool := by
          rintro ⟨out', ver', c', v', e1, e2, e3, -⟩
          rw [hC] at e3
          simp at e3
        exact ⟨⟨fun hs => absurd hs (Ne.symm statusPass_ne_fail),
          fun hp => absurd hp hnp⟩, Or.inr (Or.inl rfl)⟩
      · rcases hV : env.semverNewVersion ver with e | v
        · rw [checkVersion_version_error env tool out ver e c hE hX hC hV]
          have hnp : ¬ PassCondition env tool := by
            rintro ⟨out', ver', c', v', e1, e2, e3, e4, -⟩
            rw [hE, Except.ok.injEq] at e1
            subst e1
            rw [hX, Except.ok.injEq] at e2
            subst e2
            rw [hV] at e4
            simp at e4
          exact ⟨⟨fun hs => absurd hs (Ne.symm statusPass_ne_fail),
            fun hp => absurd hp hnp⟩, Or.inr (Or.inl rfl)⟩
        · cases hcc : env.constraintCheck c v with
          | true =>
            rw [checkVersion_constraint_holds env tool out ver c v hE hX hC hV hcc]
            exact ⟨⟨fun _ => ⟨out, ver, c, v, hE, hX, hC, hV, hcc⟩,
              fun _ => rfl⟩, Or.inl rfl⟩
          | false =>
            rw [checkVersion_constraint_fails env tool out ver c v hE hX hC hV hcc]
            have hnp : ¬ PassCondition env tool := by
              rintro ⟨out', ver', c', v', e1, e2, e3, e4, e5⟩
              rw [hE, Except.ok.injEq] at e1
              subst e1
              rw [hX, Except.ok.injEq] at e2
              subst e2
              rw [hC, Except.ok.injEq] at e3
              subst e3
              rw [hV, Except.ok.injEq] at e4
              subst e4
              rw [hcc] at e5
              simp at e5
            exact ⟨⟨fun hs => absurd hs (ifStatus_ne_pass tool.optional),
              fun hp => absurd hp hnp⟩, Or.inr (ifStatus_cases tool.optional)⟩

/-- C1 witness: the theorem applied to a concrete environment in which the
probe, extraction, parsing and constraint check all succeed. -/
theorem c1_version_check_pass_iff_witness :
    toolSmart.version ≠ [] ∧
    ((Check envW toolSmart).status = StatusPass ↔ PassCondition envW toolSmart) ∧
    ((Check envW toolSmart).status = StatusPass ∨
      (Check envW toolSmart).status = StatusFail ∨
      (Check envW toolSmart).status = StatusOptionalMissing) :=
  ⟨by decide, c1_version_check_pass_iff envW toolSmart (by decide)⟩

/-- C2: for a descriptor with `optional = true`, a probe failure (command
not found / no usable version output) and a constraint-not-satisfied result
yield `OptionalMissing` rather than `Fail`, while an extraction failure, an
invalid constraint string, or an unparseable extracted version always yield
`Fail`, never `OptionalMissing`, regardless of the optional flag. -/
theorem c2_optional_downgrade {C V : Type} (env : Env C V) (tool : Tool) :
    (tool.optional = true → tool.version = [] → env.lookPath tool.cli = none →
      (Check env tool).status = StatusOptionalMissing) ∧
    (tool.optional = true → tool.version ≠ [] → ∀ e,
      executeVersionCommand env tool = .error e →
      (Check env tool).status = StatusOptionalMissing) ∧
    (tool.version ≠ [] → ∀ out e,
      executeVersionCommand env tool = .ok out →
      extractVersion env out tool.versionPattern = .error e →
      (Check env tool).status = StatusFail) ∧
    (tool.version ≠ [] → ∀ out ver e,
      executeVersionCommand env tool = .ok out →
      extractVersion env out tool.versionPattern = .ok ver →
      env.semverNewConstraint tool.version = .error e →
      (Check env tool).status = StatusFail) ∧
    (tool.version ≠ [] → ∀ out ver e (c : C),
      executeVersionCommand env tool = .ok out →
      extractVersion env out tool.versionPattern = .ok ver →
      env.semverNewConstraint tool.version = .ok c →
      env.semverNewVersion ver = .error e →
      (Check env tool).status = StatusFail) ∧
    (tool.optional = true → tool.version ≠ [] → ∀ out ver (c : C) (v : V),
      executeVersionCommand env tool = .ok out →
      extractVersion env out tool.versionPattern = .ok ver →
      env.semverNewConstraint tool.version = .ok c →
      env.semverNewVersion ver = .ok v →
      env.constraintCheck c v = false →
      (Check env tool).status = StatusOptionalMissing) := by
  refine ⟨?_, ?_, ?_, ?_, ?_, ?_⟩
  · intro ho hv hL
    rw [Check, if_pos hv]
    simp [checkExistence, hL, ho]
  · intro ho hv e hE
    rw [Check, if_neg hv, checkVersion_probe_error env tool e hE]
    simp [ho]
  · intro hv out e hE hX
    rw [Check, if_neg hv, checkVersion_extract_error env tool out e hE hX]
  · intro hv out ver e hE hX hC
    rw [Check, if_neg hv,
      checkVersion_constraint_error env tool out ver e hE hX hC]
  · intro hv out ver e c hE hX hC hV
    rw [Check, if_neg hv,
      checkVersion_version_error env tool out ver e c hE hX hC hV]
  · intro ho hv out ver c v hE hX hC hV hcc
    rw [Check, if_neg hv,
      checkVersion_constraint_fails env tool out ver c v hE hX hC hV hcc]
    simp [ho]

/-- C2 witness: an optional tool whose probe fails gets `OptionalMissing`,
while the same optional tool whose probe prints `.5` (accepted text with no
extractable version) gets `Fail`. -/
theorem c2_optional_downgrade_witness :
    toolOptional.optional = true ∧
    (Check envNonZero toolOptional).status = StatusOptionalMissing ∧
    (Check envDot5 toolOptional).status = StatusFail :=
  ⟨rfl,
    (c2_optional_downgrade envNonZero toolOptional).2.1 rfl (by decide)
      "opt: executable file not found in $PATH".toList rfl,
    (c2_optional_downgrade envDot5 toolOptional).2.2.1 (by decide)
      ".5".toList "no version found in output".toList rfl rfl⟩

/-- C3 counterexample: under `envNonZero`, `mytool --foo` captures the
non-empty combined text `1.2.3` while exiting non-zero.  The claim says any
captured text is treated as a successful probe and returned; the code's
explicit-argument probe instead fails with `mytool: exit status 1` and
discards the captured text. -/
theorem c3_explicit_probe_counterexample :
    envNonZero.run "mytool".toList ["--foo".toList] =
      ("1.2.3".toList, some "exit status 1".toList) ∧
    executeVersionCommand envNonZero toolExplicit =
      .error "mytool: exit status 1".toList ∧
    executeVersionCommand envNonZero toolExplicit ≠ .ok "1.2.3".toList := by
  refine ⟨rfl, rfl, fun hcontra => ?_⟩
  rw [show executeVersionCommand envNonZero toolExplicit =
      .error "mytool: exit status 1".toList from rfl] at hcontra
  exact Except.noConfusion hcontra

/-- C3 amended: with explicit probe arguments the probe succeeds exactly
when the invocation's run error is nil (in which case the captured text is
returned); on any run error — even with non-empty captured text — the
probe fails with `<command>: <error>`. -/
theorem c3_explicit_probe_amended {C V : Type} (env : Env C V) (tool : Tool)
    (h : tool.versionArg ≠ []) :
    executeVersionCommand env tool =
      match env.run tool.cli (fields tool.versionArg) with
      | (output, none) => .ok output
      | (_, some e) => .error (tool.cli ++ ": ".toList ++ e) := by
  rw [executeVersionCommand, if_pos h]
  rcases hr : env.run tool.cli (fields tool.versionArg) with ⟨out, err⟩
  cases err with
  | none => simp [runCommand, hr]
  | some e =>
    simp only [runCommand, hr]
    by_cases ho : out = []
    · simp [ho]
    · simp [ho]

/-- C3 witness: the amended theorem applied to `envNonZero` and
`toolExplicit` reproduces the probe failure. -/
theorem c3_explicit_probe_amended_witness :
    toolExplicit.versionArg ≠ [] ∧
    executeVersionCommand envNonZero toolExplicit =
      .error "mytool: exit status 1".toList :=
  ⟨by decide,
    (c3_explicit_probe_amended envNonZero toolExplicit (by decide)).trans rfl⟩

/-- C9 counterexample: with `trShared` wall-clock behaviour the code's
smart-guess loop — one `context.WithTimeout(5s)` created before the loop —
exhausts the shared budget after the first (4-second) attempt plus the
cancelled second attempt and fails; the per-attempt-budget loop the claim
describes accepts the second attempt's `1.2.3`.  So the claim that "every
attempt has the full 5-second budget available to it" is false of the
code. -/
theorem c9_timeout_counterexample :
    executeVersionCommandTimed trShared "go".toList =
      .error "go: failed to get version".toList ∧
    tryVersionArgsPerAttemptSpec trShared "go".toList commonVersionArgs =
      .ok "1.2.3".toList ∧
    executeVersionCommandTimed trShared "go".toList ≠
      tryVersionArgsPerAttemptSpec trShared "go".toList commonVersionArgs := by
  refine ⟨rfl, rfl, fun hcontra => ?_⟩
  rw [show executeVersionCommandTimed trShared "go".toList =
      .error "go: failed to get version".toList from rfl,
    show tryVersionArgsPerAttemptSpec trShared "go".toList commonVersionArgs =
      .ok "1.2.3".toList from rfl] at hcontra
  exact Except.noConfusion hcontra

/-- C9 amended: the smart-guess attempts share one 5-second budget created
before the loop starts; an attempt that does not fit the remaining budget
is cancelled at the shared absolute deadline, treated as a failed attempt,
and the next argument set is still tried (against the exhausted budget). -/
theorem c9_shared_deadline_amended (tr : TimedRun) (cli : Str) (t : Nat)
    (args : List Str) (rest : List (List Str))
    (h : probeTimeout < t + tr.duration args) :
    tryVersionArgsTimed tr cli t (args :: rest) =
      tryVersionArgsTimed tr cli probeTimeout rest ∧
    executeVersionCommandTimed tr cli =
      tryVersionArgsTimed tr cli 0 commonVersionArgs ∧
    probeTimeout = 5 := by
  refine ⟨?_, rfl, rfl⟩
  rw [tryVersionArgsTimed, if_neg (Nat.not_le.mpr h)]

/-- C9 witness: the amended theorem applied to `trShared` at elapsed time 4
on the second argument set. -/
theorem c9_shared_deadline_amended_witness :
    probeTimeout < 4 + trShared.duration ["version".toList] ∧
    tryVersionArgsTimed trShared "go".toList 4 (["version".toList] :: []) =
      tryVersionArgsTimed trShared "go".toList probeTimeout [] :=
  ⟨by decide,
    (c9_shared_deadline_amended trShared "go".toList 4 ["version".toList] []
      (by decide)).1⟩

/-- C4: with no explicit probe arguments, the prober tries the six argument
sets in exactly the order `--version`, `version`, `-v`, `-V`,
`--version-short`, `-version`, returns the captured output of the first
attempt whose output is non-empty and passes the version-text heuristic —
acceptance and returned text depending only on the captured output, not on
the run error / exit status — and fails with
`<command>: failed to get version` when no attempt qualifies. -/
theorem c4_smart_guess_order {C V : Type} (env : Env C V) (tool : Tool)
    (h : tool.versionArg = []) :
    commonVersionArgs =
      [["--version".toList], ["version".toList], ["-v".toList],
       ["-V".toList], ["--version-short".toList], ["-version".toList]] ∧
    executeVersionCommand env tool =
      (match commonVersionArgs.find?
          (fun args => acceptOutput (runCommand env tool.cli args).1) with
        | some args => .ok (runCommand env tool.cli args).1
        | none => .error (tool.cli ++ ": failed to get version".toList)) ∧
    (∀ args, (runCommand env tool.cli args).1 = (env.run tool.cli args).1) ∧
    (∀ output, acceptOutput output =
      (decide (output ≠ []) && looksLikeVersionOutput output)) := by
  refine ⟨rfl, ?_, fun args => runCommand_fst env tool.cli args, fun _ => rfl⟩
  rw [executeVersionCommand, if_neg (not_not_intro h),
    tryVersionArgs_eq_find]

/-- C4 witness: in `envW` the first argument set `--version` already
captures `tool 1.2.3`, which the heuristic accepts. -/
theorem c4_smart_guess_order_witness :
    toolSmart.versionArg = [] ∧
    executeVersionCommand envW toolSmart = .ok "tool 1.2.3".toList := by
  refine ⟨rfl, ?_⟩
  rw [(c4_smart_guess_order envW toolSmart rfl).2.1]
  rfl

theorem matchVersionAt_shape (s m : Str) (h : matchVersionAt s = some m) :
    VersionShape m := by
  simp only [matchVersionAt] at h
  split at h
  · exact absurd h (by simp)
  · rename_i h1
    rw [Bool.not_eq_true, List.isEmpty_eq_false] at h1
    split at h
    · rename_i r2 heq
      split at h
      · exact absurd h (by simp)
      · rename_i h2
        rw [Bool.not_eq_true, List.isEmpty_eq_false] at h2
        split at h
        · rename_i r4 heq3
          split at h
          · injection h with h
            subst h
            exact ⟨_, _, h1, h2,
              fun c hc => List.mem_takeWhile_imp hc,
              fun c hc => List.mem_takeWhile_imp hc, Or.inl rfl⟩
          · rename_i h3
            rw [Bool.not_eq_true, List.isEmpty_eq_false] at h3
            injection h with h
            subst h
            exact ⟨_, _, h1, h2,
              fun c hc => List.mem_takeWhile_imp hc,
              fun c hc => List.mem_takeWhile_imp hc,
              Or.inr ⟨_, h3, fun c hc => List.mem_takeWhile_imp hc, rfl⟩⟩
        · injection h with h
          subst h
          exact ⟨_, _, h1, h2,
            fun c hc => List.mem_takeWhile_imp hc,
            fun c hc => List.mem_takeWhile_imp hc, Or.inl rfl⟩
    · exact absurd h (by simp)

theorem findVersionInLine_shape (l m : Str)
    (h : findVersionInLine l = some m) : VersionShape m := by
  induction l with
  | nil => simp [findVersionInLine] at h
  | cons c rest ih =>
    rw [findVersionInLine] at h
    rcases hm : matchVersionAt (c :: rest) with _ | m0
    · simp only [hm] at h
      exact ih h
    · simp only [hm] at h
      injection h with h
      subst h
      exact matchVersionAt_shape _ _ hm

theorem extractVersionLines_eq_findSome (ls : List Str) :
    extractVersionLines ls =
      match ls.findSome? (fun l => findVersionInLine (trimSpace l)) with
      | some m => .ok m
      | none => .error "no version found in output".toList := by
  induction ls with
  | nil => rfl
  | cons l0 rest ih =>
    simp only [extractVersionLines, List.findSome?_cons]
    by_cases hl : trimSpace l0 = []
    · rw [if_pos hl, hl, ih]
      rfl
    · rw [if_neg hl]
      rcases hf : findVersionInLine (trimSpace l0) with _ | m
      · simp only [hf, ih]
      · simp only [hf]

/-- C6: extraction without a custom pattern scans lines top to bottom,
trimming each line and skipping empty ones, and returns the first substring
of the shape `digits '.' digits` with an optional `'.' digits` suffix found
on the first line containing one, failing with `no version found in output`
when no line yields a match; on `"Tool Name\nVersion 1.2.3\nMore info"` it
returns `1.2.3`. -/
theorem c6_default_extraction {C V : Type} (env : Env C V) (output : Str) :
    (extractVersion env output [] =
      match (splitOnChar '\n' output).findSome?
          (fun l => findVersionInLine (trimSpace l)) with
        | some m => .ok m
        | none => .error "no version found in output".toList) ∧
    (∀ l m, findVersionInLine l = some m → VersionShape m) ∧
    extractVersion env "Tool Name\nVersion 1.2.3\nMore info".toList [] =
      .ok "1.2.3".toList := by
  refine ⟨?_, findVersionInLine_shape, ?_⟩
  · rw [extractVersion, if_neg (not_not_intro rfl),
      extractVersionLines_eq_findSome]
  · rfl

/-- C6 witness: the shape property applied to the match `1.20.0` found in a
`go version` banner, and the extraction example itself. -/
theorem c6_default_extraction_witness :
    findVersionInLine "go version go1.20.0".toList = some "1.20.0".toList ∧
    VersionShape "1.20.0".toList ∧
    extractVersion envW "Tool Name\nVersion 1.2.3\nMore info".toList [] =
      .ok "1.2.3".toList :=
  ⟨rfl,
    (c6_default_extraction envW []).2.1 "go version go1.20.0".toList
      "1.20.0".toList rfl,
    (c6_default_extraction envW
      "Tool Name\nVersion 1.2.3\nMore info".toList).2.2⟩

/-- C5: the looks-like-version-text predicate inspects only the first line
of the text and holds if and only if that line, whitespace-trimmed, is at
most 200 characters long, contains (case-insensitively) none of the reject
substrings, and contains at least one decimal digit and at least one `'.'`
character; in particular empty text is rejected. -/
theorem c5_looks_like_version_iff (output : Str) :
    (looksLikeVersionOutput output = true ↔
      ((trimSpace ((splitOnChar '\n' output).headD [])).length ≤ 200 ∧
        (∀ pat ∈ rejectPatterns,
          containsSub
            (toLowerStr (trimSpace ((splitOnChar '\n' output).headD [])))
            pat = false) ∧
        (∃ c ∈ trimSpace ((splitOnChar '\n' output).headD []),
          '0' ≤ c ∧ c ≤ '9') ∧
        '.' ∈ trimSpace ((splitOnChar '\n' output).headD []))) ∧
    looksLikeVersionOutput [] = false := by
  refine ⟨?_, rfl⟩
  rcases hs : splitOnChar '\n' output with _ | ⟨l0, rest⟩
  · exact absurd hs (splitOnChar_ne_nil '\n' output)
  · simp only [looksLikeVersionOutput, hs, List.headD_cons]
    set l := trimSpace l0 with hl
    by_cases h200 : l.length > 200
    · rw [if_pos h200]
      simp only [Bool.false_eq_true, false_iff]
      rintro ⟨hle, -⟩
      omega
    · rw [if_neg h200]
      rw [Nat.not_lt] at h200
      by_cases hrej :
          rejectPatterns.any (fun pat => containsSub (toLowerStr l) pat) = true
      · rw [if_pos hrej]
        simp only [Bool.false_eq_true, false_iff]
        rintro ⟨-, hnone, -⟩
        rw [List.any_eq_true] at hrej
        obtain ⟨pat, hpat, hc⟩ := hrej
        rw [hnone pat hpat] at hc
        exact Bool.false_ne_true hc
      · rw [if_neg hrej]
        rw [Bool.not_eq_true] at hrej
        rw [Bool.and_eq_true, containsSub_singleton, List.any_eq_true]
        constructor
        · rintro ⟨hdot, c, hcmem, hcd⟩
          rw [Bool.and_eq_true, decide_eq_true_eq, decide_eq_true_eq] at hcd
          refine ⟨h200, fun pat hp => ?_, ⟨c, hcmem, hcd⟩, hdot⟩
          have := List.any_eq_false.mp hrej pat hp
          exact Bool.not_eq_true _ |>.mp this
        · rintro ⟨-, -, ⟨c, hcmem, hc1, hc2⟩, hdot⟩
          refine ⟨hdot, c, hcmem, ?_⟩
          rw [Bool.and_eq_true, decide_eq_true_eq, decide_eq_true_eq]
          exact ⟨hc1, hc2⟩

/-- C8: with no version constraint, the check is only a search-path
resolution of the command: resolved ⇒ `Pass` with the resolved path
populated; unresolved ⇒ `Fail` (`OptionalMissing` when optional) with
reason `<command>: command not found`; in either case the installed-version
field stays empty and no subprocess output is captured. -/
theorem c8_existence_only {C V : Type} (env : Env C V) (tool : Tool)
    (h : tool.version = []) :
    (Check env tool).installedVersion = [] ∧
    (Check env tool).output = [] ∧
    (∀ p, env.lookPath tool.cli = some p →
      (Check env tool).status = StatusPass ∧ (Check env tool).path = p ∧
      (Check env tool).error = none) ∧
    (env.lookPath tool.cli = none →
      (Check env tool).status =
        (if tool.optional then StatusOptionalMissing else StatusFail) ∧
      (Check env tool).error =
        some (tool.cli ++ ": command not found".toList) ∧
      (Check env tool).path = []) := by
  have hCheck : Check env tool = checkExistence env tool := by
    rw [Check, if_pos h]
  rcases hL : env.lookPath tool.cli with _ | p0
  · have hval : checkExistence env tool =
        { tool := tool
          status := if tool.optional then StatusOptionalMissing else StatusFail
          error := some (tool.cli ++ ": command not found".toList) } := by
      simp only [checkExistence, hL]
    rw [hCheck, hval]
    refine ⟨rfl, rfl, ?_, fun _ => ⟨rfl, rfl, rfl⟩⟩
    intro p hp
    exact absurd hp (by simp)
  · have hval : checkExistence env tool =
        { tool := tool, status := StatusPass, path := p0 } := by
      simp only [checkExistence, hL]
    rw [hCheck, hval]
    refine ⟨rfl, rfl, ?_, ?_⟩
    · intro p hp
      rw [Option.some.injEq] at hp
      subst hp
      exact ⟨rfl, rfl, rfl⟩
    · intro hn
      exact absurd hn (by simp)

/-- C8 witness: in `envW` the command resolves, so the existence-only check
passes with the resolved path and no version or output populated. -/
theorem c8_existence_only_witness :
    toolExistence.version = [] ∧
    (Check envW toolExistence).status = StatusPass ∧
    (Check envW toolExistence).path = "/usr/local/bin/go".toList ∧
    (Check envW toolExistence).installedVersion = [] ∧
    (Check envW toolExistence).output = [] := by
  have h := c8_existence_only envW toolExistence rfl
  have h3 := h.2.2.1 "/usr/local/bin/go".toList rfl
  exact ⟨rfl, h3.1, h3.2.1, h.1, h.2.1⟩

/-- C7: with a non-empty requested-key list the fan-out yields exactly one
outcome per requested key, in request order — a key missing from the
mapping producing the synthetic `Fail` outcome whose failure reason
contains the phrase "not found in configuration" — and with an empty list
one outcome per descriptor of the mapping, each descriptor checked
independently of the others. -/
theorem c7_fan_out {C V : Type} (env : Env C V) (tools : List (Str × Tool))
    (filter : List Str) :
    (filter ≠ [] →
      (CheckAll env tools filter).length = filter.length ∧
      ∀ i, i < filter.length →
        (CheckAll env tools filter).getD i (notFoundResult []) =
          (match tools.lookup (filter.getD i []) with
            | none => notFoundResult (filter.getD i [])
            | some tool => Check env tool)) ∧
    (∀ name, (notFoundResult name).status = StatusFail ∧
      containsSub ((notFoundResult name).error.getD [])
        "not found in configuration".toList = true) ∧
    CheckAll env tools [] = tools.map (fun kt => Check env kt.2) := by
  refine ⟨?_, ?_, ?_⟩
  · intro hne
    have hpos : filter.length > 0 := List.length_pos.mpr hne
    rw [CheckAll, if_pos hpos]
    refine ⟨List.length_map filter _, ?_⟩
    intro i hi
    have hi2 : i < (filter.map (fun name =>
        match tools.lookup name with
        | none => notFoundResult name
        | some tool => Check env tool)).length := by
      rw [List.length_map]; exact hi
    rw [List.getD_eq_getElem _ _ hi2, List.getElem_map,
      List.getD_eq_getElem _ _ hi]
  · intro name
    refine ⟨rfl, ?_⟩
    have hbase : containsSub "' not found in configuration".toList
        "not found in configuration".toList = true := by decide
    exact containsSub_append_right ("tool '".toList ++ name)
      "' not found in configuration".toList
      "not found in configuration".toList hbase
  · rw [CheckAll, if_neg (by simp)]

/-- C7 witness: the fan-out scenario — one descriptor under key `go`,
requested key `unknown` — produces exactly one outcome, the synthetic
`Fail` whose reason contains "not found in configuration". -/
theorem c7_fan_out_witness :
    (["unknown".toList] : List Str) ≠ [] ∧
    (CheckAll envW [("go".toList, toolExistence)]
      ["unknown".toList]).length = 1 ∧
    (CheckAll envW [("go".toList, toolExistence)]
        ["unknown".toList]).getD 0 (notFoundResult []) =
      notFoundResult "unknown".toList ∧
    (notFoundResult "unknown".toList).status = StatusFail ∧
    containsSub ((notFoundResult "unknown".toList).error.getD [])
      "not found in configuration".toList = true := by
  have h := c7_fan_out envW [("go".toList, toolExistence)] ["unknown".toList]
  have h1 := h.1 (by decide)
  refine ⟨by decide, h1.1, ?_, (h.2.1 "unknown".toList).1,
    (h.2.1 "unknown".toList).2⟩
  rw [h1.2 0 (by decide)]
  rfl

/-- Status case analysis for a single check, shared by the C10 proof. -/
theorem check_status_cases {C V : Type} (env : Env C V) (tool : Tool) :
    ((Check env tool).status = StatusPass ∨
      (Check env tool).status = StatusFail ∨
      (Check env tool).status = StatusOptionalMissing) ∧
    ((Check env tool).status = StatusOptionalMissing →
      tool.optional = true) := by
  by_cases hv : tool.version = []
  · have hCheck : Check env tool = checkExistence env tool := by
      rw [Check, if_pos hv]
    rw [hCheck]
    rcases hL : env.lookPath tool.cli with _ | p
    · have hval : checkExistence env tool =
          { tool := tool
            status := if tool.optional then StatusOptionalMissing
              else StatusFail
            error := some (tool.cli ++ ": command not found".toList) } := by
        simp only [checkExistence, hL]
      rw [hval]
      exact ⟨Or.inr (ifStatus_cases tool.optional), ifStatus_om tool.optional⟩
    · have hval : checkExistence env tool =
          { tool := tool, status := StatusPass, path := p } := by
        simp only [checkExistence, hL]
      rw [hval]
      exact ⟨Or.inl rfl, fun hq => absurd hq statusPass_ne_om⟩
  · have hCheck : Check env tool = checkVersion env tool := by
      rw [Check, if_neg hv]
    rw [hCheck]
    rcases hE : executeVersionCommand env tool with e | out
    · rw [checkVersion_probe_error env tool e hE]
      exact ⟨Or.inr (ifStatus_cases tool.optional), ifStatus_om tool.optional⟩
    · rcases hX : extractVersion env out tool.versionPattern with e | ver
      · rw [checkVersion_extract_error env tool out e hE hX]
        exact ⟨Or.inr (Or.inl rfl), fun hq => absurd hq statusFail_ne_om⟩
      · rcases hC : env.semverNewConstraint tool.version with e | c
        · rw [checkVersion_constraint_error env tool out ver e hE hX hC]
          exact ⟨Or.inr (Or.inl rfl), fun hq => absurd hq statusFail_ne_om⟩
        · rcases hV : env.semverNewVersion ver with e | v
          · rw [checkVersion_version_error env tool out ver e c hE hX hC hV]
            exact ⟨Or.inr (Or.inl rfl), fun hq => absurd hq statusFail_ne_om⟩
          · cases hcc : env.constraintCheck c v with
            | true =>
              rw [checkVersion_constraint_holds env tool out ver c v
                hE hX hC hV hcc]
              exact ⟨Or.inl rfl, fun hq => absurd hq statusPass_ne_om⟩
            | false =>
              rw [checkVersion_constraint_fails env tool out ver c v
                hE hX hC hV hcc]
              exact ⟨Or.inr (ifStatus_cases tool.optional),
                ifStatus_om tool.optional⟩

/-- C10: every outcome of the single-tool check or the fan-out has status
exactly one of `Pass`, `Fail`, `OptionalMissing`, and `OptionalMissing`
occurs only for a descriptor whose optional flag is true — including the
synthetic not-in-configuration outcome, which carries a non-optional tool
and status `Fail`. -/
theorem c10_status_invariant {C V : Type} (env : Env C V) :
    (∀ tool : Tool,
      ((Check env tool).status = StatusPass ∨
        (Check env tool).status = StatusFail ∨
        (Check env tool).status = StatusOptionalMissing) ∧
      ((Check env tool).status = StatusOptionalMissing →
        tool.optional = true)) ∧
    (∀ (tools : List (Str × Tool)) (filter : List Str),
      ∀ r ∈ CheckAll env tools filter,
        (r.status = StatusPass ∨ r.status = StatusFail ∨
          r.status = StatusOptionalMissing) ∧
        (r.status = StatusOptionalMissing → r.tool.optional = true)) := by
  have hone : ∀ tool : Tool,
      ((Check env tool).status = StatusPass ∨
        (Check env tool).status = StatusFail ∨
        (Check env tool).status = StatusOptionalMissing) ∧
      ((Check env tool).status = StatusOptionalMissing →
        (Check env tool).tool.optional = true) := by
    intro tool
    refine ⟨(check_status_cases env tool).1, ?_⟩
    rw [check_tool_eq]
    exact (check_status_cases env tool).2
  refine ⟨fun tool => ⟨(hone tool).1, ?_⟩, ?_⟩
  · intro hq
    have := (hone tool).2 hq
    rwa [check_tool_eq] at this
  · intro tools filter r hr
    rw [CheckAll] at hr
    by_cases hf : filter.length > 0
    · rw [if_pos hf, List.mem_map] at hr
      obtain ⟨name, -, heq⟩ := hr
      rcases hlk : tools.lookup name with _ | tool
      · rw [hlk] at heq
        subst heq
        exact ⟨Or.inr (Or.inl rfl), fun hq => absurd hq statusFail_ne_om⟩
      · rw [hlk] at heq
        subst heq
        exact hone tool
    · rw [if_neg hf, List.mem_map] at hr
      obtain ⟨kt, -, heq⟩ := hr
      subst heq
      exact hone kt.2

/-- C10 witness: the invariant applied to a concrete check. -/
theorem c10_status_invariant_witness :
    ((Check envW toolExistence).status = StatusPass ∨
      (Check envW toolExistence).status = StatusFail ∨
      (Check envW toolExistence).status = StatusOptionalMissing) ∧
    ((Check envW toolExistence).status = StatusOptionalMissing →
      toolExistence.optional = true) :=
  (c10_status_invariant envW).1 toolExistence

end Chex
